import Mathlib

/-!
# Verification of the hsync reconciliation engine

A shallow embedding, in Lean 4, of the core of the `hsync` one-way
directory mirroring tool (Rust), together with proofs about it.

The embedding follows the source modules:

* `src/db.rs`       — the durable index (`files` table) and its operations;
* `src/scan.rs`     — the scan diff pass (`compare_and_populate`);
* `src/pipeline.rs` — the producer block loop, the consumer write and
                      bandwidth gate;
* `src/lib.rs`      — the orchestrator (`run`): scan-or-resume decision and
                      the retry loop;
* `src/utils.rs`    — `parse_bandwidth`.

SQLite rows are modelled as an association list keyed by `source_path`
(the primary key), machine integers as `Nat`/`Int`, file bytes as `Nat`,
and the content digest as an explicit function parameter
`digest : List Nat → String` (the hashers in `pipeline.rs` are opaque to
every property proved here).  Rust's `f64` appears only in the bandwidth
gate and in `parse_bandwidth`; there it is modelled by exact rationals
plus an explicit IEEE-754 special-value layer (`F64`), which is faithful
on the inputs the theorems evaluate.
-/

namespace HSync

set_option maxRecDepth 16384

/-! ## Index model — `src/db.rs` -/

/-- `FileStatus` from `db.rs`: sync status of a row of the `files` table. -/
inductive FileStatus where
  | pending
  | synced
deriving DecidableEq, Repr, BEq

/-- A row of the `files` table (`db.rs`, `Database::init`); `source_path`
is the primary key and is kept outside the record, as the key of the
association list. -/
structure FileRecord where
  dest_path : String
  created_date : Int
  changed_date : Int
  modified_date : Int
  permissions : Nat
  hash : Option String
  size : Nat
  status : FileStatus
deriving DecidableEq, Repr

/-- The `files` table: rows keyed by `source_path`. -/
abbrev Db := List (String × FileRecord)

/-- `SELECT ... FROM files WHERE source_path = ?` — at most one row, since
`source_path` is the primary key. -/
def dbLookup : Db → String → Option FileRecord
  | [], _ => none
  | (k, r) :: rest, p => if k = p then some r else dbLookup rest p

/-- `INSERT OR REPLACE` keyed on the primary key `source_path`. -/
def dbReplace : Db → String → FileRecord → Db
  | [], p, r => [(p, r)]
  | (k, old) :: rest, p, r =>
    if k = p then (k, r) :: rest else (k, old) :: dbReplace rest p r

/-- The hash-preservation query of `Database::upsert_file` (`db.rs` lines 88–96):
`SELECT hash FROM files WHERE source_path = ?1 AND modified_date = ?2 AND size = ?3`,
with `.ok().flatten()` collapsing both "no row" and "NULL hash" to `None`
(`source_path` is the primary key, so the three-column filter reduces to a
lookup plus an equality test on the row found). -/
def existingHash (db : Db) (source_path : String) (modified : Int)
    (size : Nat) : Option String :=
  match dbLookup db source_path with
  | some r => if r.modified_date = modified ∧ r.size = size then r.hash else none
  | none => none

/-- `Database::upsert_file` (`db.rs` lines 76–116): the hash-preservation
query, then `INSERT OR REPLACE` of the full row carrying that hash. -/
def upsert_file (db : Db) (source_path dest_path : String)
    (created changed modified : Int) (permissions size : Nat)
    (status : FileStatus) : Db :=
  dbReplace db source_path
    { dest_path := dest_path, created_date := created, changed_date := changed,
      modified_date := modified, permissions := permissions,
      hash := existingHash db source_path modified size,
      size := size, status := status }

/-- `Database::mark_synced` (`db.rs` lines 119–125):
`UPDATE files SET status = 'synced', hash = ?2 WHERE source_path = ?1`. -/
def mark_synced : Db → String → String → Db
  | [], _, _ => []
  | (k, r) :: rest, source_path, hash =>
    if k = source_path then
      (k, { r with status := FileStatus.synced, hash := some hash })
        :: mark_synced rest source_path hash
    else
      (k, r) :: mark_synced rest source_path hash

/-- `Database::pending_count` (`db.rs` lines 128–135):
`SELECT COUNT(*) FROM files WHERE status = 'pending'`. -/
def pending_count (db : Db) : Nat :=
  db.countP fun kv => kv.2.status == FileStatus.pending

/-- `Database::pending_total_bytes` (`db.rs` lines 138–145):
`SELECT COALESCE(SUM(size), 0) FROM files WHERE status = 'pending'`. -/
def pending_total_bytes (db : Db) : Nat :=
  ((db.filter fun kv => kv.2.status == FileStatus.pending).map
    fun kv => kv.2.size).sum

/-- Modelled from the spec: `reset_for_rescan()` is listed in §4.1 of the
specification ("set every row to `pending` in a single statement;
preserves hashes") but the function itself is absent from the provided
`src/src/db.rs`; the single statement is
`UPDATE files SET status = 'pending'`, which touches no other column. -/
def reset_for_rescan (db : Db) : Db :=
  db.map fun kv => (kv.1, { kv.2 with status := FileStatus.pending })

/-! ### Basic lookup lemmas -/

theorem dbLookup_dbReplace_self (db : Db) (p : String) (r : FileRecord) :
    dbLookup (dbReplace db p r) p = some r := by
  induction db with
  | nil => simp [dbReplace, dbLookup]
  | cons kv rest ih =>
    obtain ⟨k, old⟩ := kv
    by_cases h : k = p
    · simp [dbReplace, dbLookup, h]
    · simp [dbReplace, dbLookup, h, ih]

theorem dbLookup_dbReplace_ne (db : Db) (p q : String) (r : FileRecord)
    (h : q ≠ p) : dbLookup (dbReplace db p r) q = dbLookup db q := by
  have hpq : p ≠ q := fun hh => h hh.symm
  induction db with
  | nil => simp [dbReplace, dbLookup, hpq]
  | cons kv rest ih =>
    obtain ⟨k, old⟩ := kv
    by_cases hk : k = p
    · subst hk
      simp [dbReplace, dbLookup, hpq]
    · simp [dbReplace, dbLookup, hk, ih]

theorem dbLookup_mark_synced (db : Db) (p h : String) :
    dbLookup (mark_synced db p h) p =
      (dbLookup db p).map
        fun r => { r with status := FileStatus.synced, hash := some h } := by
  induction db with
  | nil => simp [mark_synced, dbLookup]
  | cons kv rest ih =>
    obtain ⟨k, old⟩ := kv
    by_cases hk : k = p
    · subst hk
      simp [mark_synced, dbLookup]
    · simp [mark_synced, dbLookup, hk, ih]

/-! ## Claim C2 -/

/-- C2: for every existing row and every `upsert_file` call — if the call
carries the same `(source_path, modified_date, size)` triple as the
existing row, the hash after the call equals the hash before; if either
`modified_date` or `size` differs, the hash after the call is absent. -/
theorem upsert_file_hash_rule (db : Db) (p dp : String) (cr ch m : Int)
    (pm s : Nat) (st : FileStatus) (r : FileRecord)
    (hex : dbLookup db p = some r) :
    ∃ r', dbLookup (upsert_file db p dp cr ch m pm s st) p = some r' ∧
      (r.modified_date = m ∧ r.size = s → r'.hash = r.hash) ∧
      (r.modified_date ≠ m ∨ r.size ≠ s → r'.hash = none) := by
  simp only [upsert_file, existingHash, hex]
  refine ⟨_, dbLookup_dbReplace_self .., ?_, ?_⟩
  · intro hsame
    simp [hsame.1, hsame.2]
  · intro hdiff
    rcases hdiff with hd | hd <;> simp [hd]

/-- Witness for C2 at a concrete row: same triple preserves the hash,
a changed `modified_date` clears it. -/
theorem upsert_file_hash_rule_witness :
    ∃ r', dbLookup (upsert_file
        [("/s/a", { dest_path := "/d/a", created_date := 1, changed_date := 2,
                    modified_date := 3, permissions := 420, hash := some "h0",
                    size := 7, status := FileStatus.synced })]
        "/s/a" "/d/a" 1 2 3 420 7 FileStatus.pending) "/s/a" = some r' ∧
      r'.hash = some "h0" := by
  obtain ⟨r', hl, hsame, _⟩ := upsert_file_hash_rule
    [("/s/a", { dest_path := "/d/a", created_date := 1, changed_date := 2,
                modified_date := 3, permissions := 420, hash := some "h0",
                size := 7, status := FileStatus.synced })]
    "/s/a" "/d/a" 1 2 3 420 7 FileStatus.pending
    { dest_path := "/d/a", created_date := 1, changed_date := 2,
      modified_date := 3, permissions := 420, hash := some "h0",
      size := 7, status := FileStatus.synced } (by decide)
  exact ⟨r', hl, hsame (by exact ⟨rfl, rfl⟩)⟩

/-! ## Scan model — `src/scan.rs` -/

/-- `scan.rs` line 95: source metadata `(mtime, atime, size, permissions)`. -/
abbrev SourceFileInfo := Int × Int × Nat × Nat

/-- `scan.rs` line 21: destination metadata `(mtime, size)`. -/
abbrev DestInfo := Int × Nat

/-- `HashMap::get` over a map with unique keys, modelled on an association
list. -/
def alookup {α : Type} : List (String × α) → String → Option α
  | [], _ => none
  | (k, v) :: rest, p => if k = p then some v else alookup rest p

/-- `Path::join` of a directory and a relative path. -/
def joinPath (dir rel : String) : String := dir ++ "/" ++ rel

/-- The diff rule of `compare_and_populate` (`scan.rs` lines 225–233):
`Synced` exactly when the destination map has the relative path with
matching mtime and size, else `Pending`. -/
def scanStatus (dest_map : List (String × DestInfo)) (rel : String)
    (mtime : Int) (size : Nat) : FileStatus :=
  match alookup dest_map rel with
  | some (dest_mtime, dest_size) =>
    if dest_mtime = mtime ∧ dest_size = size then FileStatus.synced
    else FileStatus.pending
  | none => FileStatus.pending

/-- `compare_and_populate` (`scan.rs` lines 206–251): iterate the source
map, upsert one row per source entry with the diff status, count the
pending ones.  Returns `(pending, db)`. -/
def compare_and_populate (source_dir dest_dir : String) :
    List (String × SourceFileInfo) → List (String × DestInfo) → Db → Nat × Db
  | [], _, db => (0, db)
  | (rel, (mtime, atime, size, permissions)) :: rest, dest_map, db =>
    let source_path := joinPath source_dir rel
    let dest_path := joinPath dest_dir rel
    let ctime := mtime
    let status := scanStatus dest_map rel mtime size
    let db' := upsert_file db source_path dest_path atime ctime mtime
      permissions size status
    let out := compare_and_populate source_dir dest_dir rest dest_map db'
    ((if status = FileStatus.pending then 1 else 0) + out.1, out.2)

theorem joinPath_inj (dir : String) {a b : String}
    (h : joinPath dir a = joinPath dir b) : a = b := by
  have hd := congrArg String.data h
  simp only [joinPath, String.data_append] at hd
  exact String.ext (List.append_cancel_left hd)

theorem dbLookup_upsert_file_self (db : Db) (p dp : String) (cr ch m : Int)
    (pm s : Nat) (st : FileStatus) :
    dbLookup (upsert_file db p dp cr ch m pm s st) p =
      some { dest_path := dp, created_date := cr, changed_date := ch,
             modified_date := m, permissions := pm,
             hash := existingHash db p m s, size := s, status := st } :=
  dbLookup_dbReplace_self ..

theorem dbLookup_upsert_file_ne (db : Db) (p dp : String) (cr ch m : Int)
    (pm s : Nat) (st : FileStatus) (q : String) (h : q ≠ p) :
    dbLookup (upsert_file db p dp cr ch m pm s st) q = dbLookup db q :=
  dbLookup_dbReplace_ne _ _ _ _ h

/-- Frame part of the diff pass: paths not derived from a source entry are
untouched; in particular entries present only in the destination map
produce no index row. -/
theorem compare_and_populate_frame (sd dd : String)
    (sm : List (String × SourceFileInfo)) (dm : List (String × DestInfo))
    (db : Db) (q : String) (hq : ∀ e ∈ sm, q ≠ joinPath sd e.1) :
    dbLookup (compare_and_populate sd dd sm dm db).2 q = dbLookup db q := by
  induction sm generalizing db with
  | nil => rfl
  | cons e rest ih =>
    obtain ⟨rel, mt, a, sz, pm⟩ := e
    have hne : q ≠ joinPath sd rel := hq _ (List.mem_cons_self ..)
    simp only [compare_and_populate]
    rw [ih _ fun e he => hq e (List.mem_cons_of_mem _ he)]
    exact dbLookup_upsert_file_ne _ _ _ _ _ _ _ _ _ _ hne

/-- Row part of the diff pass: every source entry ends with a row whose
status is the diff status (needs the source keys unique, as for a
`HashMap`). -/
theorem compare_and_populate_row (sd dd : String)
    (sm : List (String × SourceFileInfo)) (dm : List (String × DestInfo))
    (db : Db) (hnd : (sm.map Prod.fst).Nodup)
    (rel : String) (mt a : Int) (sz pm : Nat)
    (hmem : (rel, (mt, a, sz, pm)) ∈ sm) :
    ∃ r, dbLookup (compare_and_populate sd dd sm dm db).2 (joinPath sd rel)
        = some r ∧
      r.status = scanStatus dm rel mt sz ∧
      r.modified_date = mt ∧ r.size = sz ∧
      r.dest_path = joinPath dd rel := by
  induction sm generalizing db with
  | nil => cases hmem
  | cons e rest ih =>
    obtain ⟨rel', mt', a', sz', pm'⟩ := e
    simp only [List.map_cons, List.nodup_cons] at hnd
    rcases List.mem_cons.mp hmem with hhead | htail
    · injection hhead with h1 h2
      injection h2 with h3 h4
      injection h4 with h5 h6
      injection h6 with h7 h8
      subst h1; subst h3; subst h5; subst h7; subst h8
      simp only [compare_and_populate]
      rw [compare_and_populate_frame sd dd rest dm _ _
        (fun e he heq => hnd.1 (by
          rw [joinPath_inj sd heq]
          exact List.mem_map_of_mem Prod.fst he))]
      rw [dbLookup_upsert_file_self]
      exact ⟨_, rfl, rfl, rfl, rfl, rfl⟩
    · simp only [compare_and_populate]
      exact ih _ hnd.2 htail

/-- The diff status is `synced` precisely when the destination map holds
the relative path with the source's mtime and size. -/
theorem scanStatus_eq_synced_iff (dm : List (String × DestInfo))
    (rel : String) (mt : Int) (sz : Nat) :
    scanStatus dm rel mt sz = FileStatus.synced ↔
      alookup dm rel = some (mt, sz) := by
  unfold scanStatus
  cases h : alookup dm rel with
  | none => simp
  | some v =>
    obtain ⟨dmt, dsz⟩ := v
    by_cases hc : dmt = mt ∧ dsz = sz
    · obtain ⟨rfl, rfl⟩ := hc
      simp
    · simp only [if_neg hc, Option.some.injEq, Prod.mk.injEq]
      constructor
      · intro hps; cases hps
      · intro hq
        exact absurd ⟨hq.1, hq.2⟩ hc

/-- Counter part of the diff pass: the returned backlog count is the
number of source entries with no matching destination entry. -/
theorem compare_and_populate_count (sd dd : String)
    (sm : List (String × SourceFileInfo)) (dm : List (String × DestInfo))
    (db : Db) :
    (compare_and_populate sd dd sm dm db).1 =
      sm.countP
        (fun e => decide (alookup dm e.1 ≠ some (e.2.1, e.2.2.2.1))) := by
  induction sm generalizing db with
  | nil => rfl
  | cons e rest ih =>
    obtain ⟨rel, mt, a, sz, pm⟩ := e
    simp only [compare_and_populate, List.countP_cons, ih]
    have hiff := scanStatus_eq_synced_iff dm rel mt sz
    by_cases hq : alookup dm rel = some (mt, sz)
    · rw [hiff.mpr hq]
      simp [hq]
    · have hp : scanStatus dm rel mt sz = FileStatus.pending := by
        cases hs : scanStatus dm rel mt sz with
        | pending => rfl
        | synced => exact absurd (hiff.mp hs) hq
      rw [hp]
      simp only [List.countP_cons]
      simp [hq]
      omega

/-- C3: for every source entry of the scan, the diff assigns status
`synced` exactly when the destination map contains the path with equal
mtime and equal size, otherwise assigns `pending` and counts it in the
backlog counter; entries present only in the destination map produce no
index row (any path not derived from a source entry is untouched). -/
theorem scan_diff_rule (sd dd : String)
    (sm : List (String × SourceFileInfo)) (dm : List (String × DestInfo))
    (db : Db) (hnd : (sm.map Prod.fst).Nodup) :
    (∀ rel mt a sz pm, (rel, (mt, a, sz, pm)) ∈ sm →
      ∃ r, dbLookup (compare_and_populate sd dd sm dm db).2 (joinPath sd rel)
          = some r ∧
        (r.status = FileStatus.synced ↔ alookup dm rel = some (mt, sz)) ∧
        (r.status = FileStatus.pending ↔ alookup dm rel ≠ some (mt, sz))) ∧
    (compare_and_populate sd dd sm dm db).1 =
      sm.countP
        (fun e => decide (alookup dm e.1 ≠ some (e.2.1, e.2.2.2.1))) ∧
    (∀ q, (∀ e ∈ sm, q ≠ joinPath sd e.1) →
      dbLookup (compare_and_populate sd dd sm dm db).2 q = dbLookup db q) := by
  refine ⟨?_, compare_and_populate_count .., ?_⟩
  · intro rel mt a sz pm hmem
    obtain ⟨r, hl, hst, -, -, -⟩ :=
      compare_and_populate_row sd dd sm dm db hnd rel mt a sz pm hmem
    have hiff := scanStatus_eq_synced_iff dm rel mt sz
    refine ⟨r, hl, ?_, ?_⟩
    · rw [hst]; exact hiff
    · rw [hst]
      constructor
      · intro hp hq
        rw [hiff.mpr hq] at hp
        cases hp
      · intro hq
        cases hs : scanStatus dm rel mt sz with
        | pending => rfl
        | synced => exact absurd (hiff.mp hs) hq
  · intro q hq
    exact compare_and_populate_frame sd dd sm dm db q hq

/-- Witness for C3 on a two-entry source map: entry "a" matches the
destination (synced), entry "b" has a size mismatch (pending, counted),
and the destination-only entry "c" creates no row. -/
theorem scan_diff_rule_witness :
    ∃ r, dbLookup (compare_and_populate "/s" "/d"
        [("a", (10, 1, 5, 420)), ("b", (20, 2, 9, 420))]
        [("a", (10, 5)), ("b", (20, 7)), ("c", (30, 3))] []).2 "/s/a"
        = some r ∧
      (r.status = FileStatus.synced ↔
        alookup [("a", (10, 5)), ("b", (20, 7)), ("c", (30, 3))] "a"
          = some ((10 : Int), (5 : Nat))) := by
  obtain ⟨hrow, hcount, hframe⟩ := scan_diff_rule "/s" "/d"
    [("a", (10, 1, 5, 420)), ("b", (20, 2, 9, 420))]
    [("a", (10, 5)), ("b", (20, 7)), ("c", (30, 3))] [] (by decide)
  obtain ⟨r, hl, hiff, -⟩ := hrow "a" 10 1 5 420 (by decide)
  exact ⟨r, hl, hiff⟩

/-! ## Transfer pipeline — `src/pipeline.rs`

The producer's per-file read loop and the consumer's write are modelled
over explicit byte lists; the incremental hasher is the function
`digest` applied to the bytes consumed so far (`DynDigest` contract:
`finalize_hex` is invariant to chunk boundaries, so only the
concatenation matters). -/

/-- A transfer block (`pipeline.rs` lines 26–39). -/
structure Block where
  data : List Nat
  offset : Nat
  dest_path : String
  source_path : String
  atime : Int
  mtime : Int
  ctime : Int
  permissions : Nat
  is_last_block : Bool
  file_hash : Option String
  file_size : Nat
deriving DecidableEq, Repr

/-- The per-file metadata the producer stats before streaming
(`pipeline.rs` lines 190–198). -/
structure FileMeta where
  source_path : String
  dest_path : String
  atime : Int
  mtime : Int
  ctime : Int
  permissions : Nat
deriving DecidableEq, Repr

/-- Helper constructor for the blocks of one file (fixed metadata and
stat size). -/
def mkBlock (meta : FileMeta) (size : Nat) (data : List Nat) (offset : Nat)
    (is_last : Bool) (fh : Option String) : Block :=
  { data := data, offset := offset, dest_path := meta.dest_path,
    source_path := meta.source_path, atime := meta.atime,
    mtime := meta.mtime, ctime := meta.ctime,
    permissions := meta.permissions, is_last_block := is_last,
    file_hash := fh, file_size := size }

/-- The read loop of `run_producer` (`pipeline.rs` lines 244–327) for one
file, after a successful stat and open.  `size` is the stat size, `b` the
block size (`BLOCK_SIZE`), `rest` the unread remainder of the file,
`offset` the bytes enqueued so far and `hashed` what the hasher has
consumed.  A read returns `rest.take b`; a read of zero bytes emits the
single empty terminal block when `size == 0` and otherwise just breaks;
a non-empty read emits a block that is terminal iff
`offset + bytes_read == size`, carrying `finalize_hex` exactly then. -/
def produceGo (digest : List Nat → String) (meta : FileMeta)
    (size b : Nat) (rest : List Nat) (offset : Nat) (hashed : List Nat) :
    List Block :=
  if h0 : (rest.take b).length = 0 then
    if size = 0 then
      [mkBlock meta 0 [] 0 true (some (digest hashed))]
    else []
  else
    if offset + (rest.take b).length = size then
      [mkBlock meta size (rest.take b) offset true
        (some (digest (hashed ++ rest.take b)))]
    else
      mkBlock meta size (rest.take b) offset false none ::
        produceGo digest meta size b (rest.drop b)
          (offset + (rest.take b).length) (hashed ++ rest.take b)
termination_by rest.length
decreasing_by
  simp only [List.length_take] at h0
  simp only [List.length_drop]
  omega

/-- One unfolding of the producer loop: a full non-terminal read. -/
theorem produceGo_step_mid (digest : List Nat → String) (meta : FileMeta)
    (size b : Nat) (rest : List Nat) (offset : Nat) (hashed : List Nat)
    (hne : ¬ (rest.take b).length = 0)
    (hnl : ¬ offset + (rest.take b).length = size) :
    produceGo digest meta size b rest offset hashed =
      mkBlock meta size (rest.take b) offset false none ::
        produceGo digest meta size b (rest.drop b)
          (offset + (rest.take b).length) (hashed ++ rest.take b) := by
  conv_lhs => unfold produceGo
  rw [dif_neg hne, if_neg hnl]

/-- One unfolding of the producer loop: the terminal read. -/
theorem produceGo_step_last (digest : List Nat → String) (meta : FileMeta)
    (size b : Nat) (rest : List Nat) (offset : Nat) (hashed : List Nat)
    (hne : ¬ (rest.take b).length = 0)
    (hl : offset + (rest.take b).length = size) :
    produceGo digest meta size b rest offset hashed =
      [mkBlock meta size (rest.take b) offset true
        (some (digest (hashed ++ rest.take b)))] := by
  conv_lhs => unfold produceGo
  rw [dif_neg hne, if_pos hl]

/-- One pending file streamed by `run_producer`: content `c`, stat size
`c.length`, starting at offset `0` with a fresh hasher. -/
def run_producer_file (digest : List Nat → String) (meta : FileMeta)
    (b : Nat) (c : List Nat) : List Block :=
  produceGo digest meta c.length b c 0 []

/-- Closed form of the producer loop on a consistent file: with
`rest.length = N * b + k`, `0 < k ≤ b`, the loop emits `N` full blocks
then one terminal block of `k` bytes carrying the digest of everything
consumed. -/
theorem produceGo_spec (digest : List Nat → String) (meta : FileMeta)
    (b : Nat) (hb : 0 < b) :
    ∀ (N : Nat) (rest : List Nat) (offset : Nat) (hashed : List Nat)
      (size k : Nat), rest.length = N * b + k → 0 < k → k ≤ b →
      size = offset + rest.length →
      produceGo digest meta size b rest offset hashed =
        (List.range N).map (fun i =>
          mkBlock meta size ((rest.drop (i * b)).take b) (offset + i * b)
            false none) ++
        [mkBlock meta size (rest.drop (N * b)) (offset + N * b) true
          (some (digest (hashed ++ rest)))] := by
  intro N
  induction N with
  | zero =>
    intro rest offset hashed size k hlen hk0 hkb hsize
    unfold produceGo
    have htake : rest.take b = rest := List.take_of_length_le (by omega)
    rw [htake]
    rw [dif_neg (by omega), if_pos (by omega)]
    simp
  | succ N ih =>
    intro rest offset hashed size k hlen hk0 hkb hsize
    have hlen' : rest.length = N * b + b + k := by rw [hlen]; ring
    have htake : (rest.take b).length = b := by
      simp only [List.length_take]
      omega
    rw [produceGo_step_mid digest meta size b rest offset hashed
      (by rw [htake]; omega) (by rw [htake]; omega)]
    rw [htake]
    rw [ih (rest.drop b) (offset + b) (hashed ++ rest.take b) size k
      (by simp only [List.length_drop]; omega) hk0 hkb
      (by simp only [List.length_drop]; omega)]
    rw [List.range_succ_eq_map, List.map_cons, List.map_map]
    simp only [List.cons_append]
    congr 1
    · simp [mkBlock]
    congr 1
    · refine List.map_congr_left fun i hi => ?_
      simp only [Function.comp_apply, Nat.succ_eq_add_one]
      rw [List.drop_drop]
      have e1 : b + i * b = (i + 1) * b := by ring
      have e2 : offset + b + i * b = offset + (i + 1) * b := by ring
      rw [e1, e2]
    · rw [List.drop_drop]
      have e1 : b + N * b = (N + 1) * b := by ring
      have e2 : offset + b + N * b = offset + (N + 1) * b := by ring
      rw [e1, e2, List.append_assoc, List.take_append_drop]

/-- C4: a zero-byte source yields exactly one terminal block with empty
payload, offset 0 and the empty-input digest; a source of size
`N * b + k` (`0 < k ≤ b`) yields `N + 1` blocks: `N` full non-terminal
hash-free blocks at offsets `0, b, 2b, …` and then a terminal `k`-byte
block at offset `N * b` carrying the digest of the whole content. -/
theorem producer_block_layout (digest : List Nat → String) (meta : FileMeta)
    (b : Nat) (hb : 0 < b) (c : List Nat) (N k : Nat)
    (hlen : c.length = N * b + k) (hk0 : 0 < k) (hkb : k ≤ b) :
    run_producer_file digest meta b [] =
      [mkBlock meta 0 [] 0 true (some (digest []))] ∧
    run_producer_file digest meta b c =
      (List.range N).map (fun i =>
        mkBlock meta c.length ((c.drop (i * b)).take b) (i * b) false none)
      ++ [mkBlock meta c.length (c.drop (N * b)) (N * b) true
            (some (digest c))] ∧
    (run_producer_file digest meta b c).length = N + 1 ∧
    (∀ i, i < N → ((c.drop (i * b)).take b).length = b) ∧
    (c.drop (N * b)).length = k := by
  have hmain : run_producer_file digest meta b c =
      (List.range N).map (fun i =>
        mkBlock meta c.length ((c.drop (i * b)).take b) (i * b) false none)
      ++ [mkBlock meta c.length (c.drop (N * b)) (N * b) true
            (some (digest c))] := by
    unfold run_producer_file
    have h := produceGo_spec digest meta b hb N c 0 [] c.length k hlen hk0
      hkb (by omega)
    simpa using h
  refine ⟨?_, hmain, ?_, ?_, ?_⟩
  · unfold run_producer_file
    unfold produceGo
    simp
  · rw [hmain]
    simp
  · intro i hi
    have h2 : i * b + b ≤ N * b := by
      calc i * b + b = (i + 1) * b := by ring
        _ ≤ N * b := Nat.mul_le_mul_right b (by omega)
    simp only [List.length_take, List.length_drop]
    omega
  · simp only [List.length_drop]
    omega

/-- Witness for C4 with block size 2 and a 5-byte file: two full blocks
and a one-byte terminal block. -/
theorem producer_block_layout_witness :
    (0 : Nat) < 2 ∧
    run_producer_file (fun _ => "h") ⟨"sp", "dp", 1, 2, 3, 420⟩ 2
        [9, 8, 7, 6, 5] =
      (List.range 2).map (fun i =>
        mkBlock ⟨"sp", "dp", 1, 2, 3, 420⟩
          ([9, 8, 7, 6, 5] : List Nat).length
          (([9, 8, 7, 6, 5] : List Nat).drop (i * 2) |>.take 2) (i * 2)
          false none)
      ++ [mkBlock ⟨"sp", "dp", 1, 2, 3, 420⟩
            ([9, 8, 7, 6, 5] : List Nat).length
            (([9, 8, 7, 6, 5] : List Nat).drop (2 * 2)) (2 * 2) true
            (some "h")] :=
  ⟨by decide,
    (producer_block_layout (fun _ => "h") ⟨"sp", "dp", 1, 2, 3, 420⟩ 2
      (by decide) [9, 8, 7, 6, 5] 2 1 (by decide) (by decide)
      (by decide)).2.1⟩

/-! ## Consumer write — `src/pipeline.rs` lines 349–399 -/

/-- `seek(SeekFrom::Start(offset))` followed by `write_all(&data)` on a
file whose current bytes are `file`; a seek past end-of-file zero-fills
the gap. -/
def writeAt (file : List Nat) (offset : Nat) (data : List Nat) : List Nat :=
  (file.take offset ++ List.replicate (offset - file.length) 0)
    ++ (data ++ file.drop (offset + data.length))

/-- The write step of `run_consumer` (`pipeline.rs` lines 354–365):
`OpenOptions::new().write(true).create(true)` with `truncate(true)`
exactly when `block.offset == 0`, then seek-and-write.  `existing` is the
prior content of the destination file (`none` if absent; `create(true)`
makes an absent file start empty). -/
def consumerWrite (existing : Option (List Nat)) (block : Block) :
    List Nat :=
  let base := if block.offset = 0 then [] else existing.getD []
  writeAt base block.offset block.data

/-- The terminal-block persistence step of `run_consumer` (`pipeline.rs`
lines 379–390): on the terminal block, mark the record synced with
`file_hash.unwrap_or("")`. -/
def consumerFinalize (db : Db) (bl : Block) : Db :=
  if bl.is_last_block then
    mark_synced db bl.source_path (bl.file_hash.getD "")
  else db

theorem writeAt_prefix_length (file : List Nat) (offset : Nat) :
    (file.take offset ++ List.replicate (offset - file.length) 0).length
      = offset := by
  simp only [List.length_append, List.length_take, List.length_replicate]
  omega

theorem writeAt_getElem_lt (file : List Nat) (offset : Nat)
    (data : List Nat) (i : Nat) (hi : i < offset) (hif : i < file.length) :
    (writeAt file offset data)[i]? = file[i]? := by
  unfold writeAt
  rw [List.getElem?_append_left (by rw [writeAt_prefix_length]; omega)]
  rw [List.getElem?_append_left (by simp only [List.length_take]; omega)]
  exact List.getElem?_take_of_lt hi

theorem writeAt_getElem_mid (file : List Nat) (offset : Nat)
    (data : List Nat) (j : Nat) (hj : j < data.length) :
    (writeAt file offset data)[offset + j]? = data[j]? := by
  unfold writeAt
  rw [List.getElem?_append_right (by rw [writeAt_prefix_length]; omega)]
  rw [writeAt_prefix_length, Nat.add_sub_cancel_left]
  exact List.getElem?_append_left hj

theorem writeAt_getElem_ge (file : List Nat) (offset : Nat)
    (data : List Nat) (i : Nat) (hi : offset + data.length ≤ i) :
    (writeAt file offset data)[i]? = file[i]? := by
  unfold writeAt
  rw [List.getElem?_append_right (by rw [writeAt_prefix_length]; omega)]
  rw [writeAt_prefix_length]
  rw [List.getElem?_append_right (by omega)]
  rw [List.getElem?_drop]
  congr 1
  omega

/-- C5: the destination is opened with truncation iff the block's offset
is 0 — an offset-0 block replaces the whole file content with exactly its
payload; a block at offset `o > 0` does not truncate: its payload lands
at exactly `[o, o + len)` and every byte outside that range is
unchanged. -/
theorem consumer_truncate_rule (existing : Option (List Nat)) (bl : Block) :
    (bl.offset = 0 → consumerWrite existing bl = bl.data) ∧
    (0 < bl.offset →
      (∀ i, i < bl.offset → i < (existing.getD []).length →
        (consumerWrite existing bl)[i]? = (existing.getD [])[i]?) ∧
      (∀ j, j < bl.data.length →
        (consumerWrite existing bl)[bl.offset + j]? = bl.data[j]?) ∧
      (∀ i, bl.offset + bl.data.length ≤ i →
        (consumerWrite existing bl)[i]? = (existing.getD [])[i]?)) := by
  constructor
  · intro h0
    simp [consumerWrite, h0, writeAt]
  · intro hpos
    have hbase : (if bl.offset = 0 then ([] : List Nat)
        else existing.getD []) = existing.getD [] := by
      rw [if_neg (by omega)]
    refine ⟨?_, ?_, ?_⟩
    · intro i hi hif
      unfold consumerWrite
      rw [hbase]
      exact writeAt_getElem_lt _ _ _ i hi hif
    · intro j hj
      unfold consumerWrite
      rw [hbase]
      exact writeAt_getElem_mid _ _ _ j hj
    · intro i hi
      unfold consumerWrite
      rw [hbase]
      exact writeAt_getElem_ge _ _ _ i hi

/-- Witness for C5: writing `[9]` at offset 2 of `[1, 2, 3, 4, 5]` keeps
byte 1 and byte 4, and puts `9` at index 2. -/
theorem consumer_truncate_rule_witness :
    (consumerWrite (some [1, 2, 3, 4, 5])
        (mkBlock ⟨"sp", "dp", 1, 2, 3, 420⟩ 5 [9] 2 false none))[1]?
      = some 2 ∧
    (consumerWrite (some [1, 2, 3, 4, 5])
        (mkBlock ⟨"sp", "dp", 1, 2, 3, 420⟩ 5 [9] 2 false none))[2 + 0]?
      = some 9 ∧
    (consumerWrite (some [1, 2, 3, 4, 5])
        (mkBlock ⟨"sp", "dp", 1, 2, 3, 420⟩ 5 [9] 2 false none))[4]?
      = some 5 := by
  have h := (consumer_truncate_rule (some [1, 2, 3, 4, 5])
    (mkBlock ⟨"sp", "dp", 1, 2, 3, 420⟩ 5 [9] 2 false none)).2 (by decide)
  exact ⟨(h.1 1 (by decide) (by decide)).trans (by decide),
    (h.2.1 0 (by decide)).trans (by decide),
    (h.2.2 4 (by decide)).trans (by decide)⟩

/-! ## Claim C1 -/

/-- C1 counterexample: on an empty index, the scan's diff pass upserts a
source entry that matches the destination with status `synced`, yet the
row's hash is `NULL` — `upsert_file` only *preserves* an existing hash
and never computes one, and here there is none to preserve.  This
refutes "`status = synced` implies `hash` is present". -/
theorem synced_null_hash_counterexample :
    dbLookup (compare_and_populate "/s" "/d" [("a", (10, 1, 5, 420))]
        [("a", (10, 5))] []).2 "/s/a" =
      some { dest_path := "/d/a", created_date := 1, changed_date := 10,
             modified_date := 10, permissions := 420, hash := none,
             size := 5, status := FileStatus.synced } := by
  decide

/-- C1 (amended): the consumer's path to `synced` — `mark_synced` —
always establishes a present hash equal to the digest it is handed, and
on the pipeline's terminal block that digest is the digest of the full
streamed content; the scan's upsert with status `Synced`, in contrast,
establishes no hash of its own: it stores exactly the preserved
`existingHash`, which is absent unless an existing row matched the
`(source_path, modified_date, size)` triple, so a `synced` row written by
the scan fast-path can have an absent hash. -/
theorem synced_hash_amended :
    (∀ db p h r, dbLookup db p = some r →
      dbLookup (mark_synced db p h) p =
        some { r with status := FileStatus.synced, hash := some h }) ∧
    (∀ (digest : List Nat → String) (meta : FileMeta) (b : Nat)
      (c : List Nat) (N k : Nat), 0 < b → c.length = N * b + k → 0 < k →
      k ≤ b → ∃ L, (run_producer_file digest meta b c).getLast? = some L ∧
        L.is_last_block = true ∧ L.file_hash = some (digest c) ∧
        ∀ db, consumerFinalize db L =
          mark_synced db meta.source_path (digest c)) ∧
    (∀ db p dp cr ch m pm s, ∃ r',
      dbLookup (upsert_file db p dp cr ch m pm s FileStatus.synced) p
        = some r' ∧
      r'.status = FileStatus.synced ∧
      r'.hash = existingHash db p m s) := by
  refine ⟨?_, ?_, ?_⟩
  · intro db p h r hl
    rw [dbLookup_mark_synced, hl]
    rfl
  · intro digest meta b c N k hb hlen hk0 hkb
    have hmain : run_producer_file digest meta b c =
        (List.range N).map (fun i =>
          mkBlock meta c.length ((c.drop (i * b)).take b) (i * b) false
            none)
        ++ [mkBlock meta c.length (c.drop (N * b)) (N * b) true
              (some (digest c))] := by
      unfold run_producer_file
      have h := produceGo_spec digest meta b hb N c 0 [] c.length k hlen
        hk0 hkb (by omega)
      simpa using h
    refine ⟨mkBlock meta c.length (c.drop (N * b)) (N * b) true
      (some (digest c)), ?_, rfl, rfl, ?_⟩
    · rw [hmain, List.getLast?_concat]
    · intro db
      rfl
  · intro db p dp cr ch m pm s
    exact ⟨_, dbLookup_upsert_file_self .., rfl, rfl⟩

/-- Witness for the amended C1: `mark_synced` on a concrete one-row index
yields a present hash. -/
theorem synced_hash_amended_witness :
    dbLookup (mark_synced
        [("p", { dest_path := "d", created_date := 0, changed_date := 0,
                 modified_date := 0, permissions := 0, hash := none,
                 size := 0, status := FileStatus.pending })] "p" "h1") "p"
      = some { dest_path := "d", created_date := 0, changed_date := 0,
               modified_date := 0, permissions := 0, hash := some "h1",
               size := 0, status := FileStatus.synced } :=
  synced_hash_amended.1
    [("p", { dest_path := "d", created_date := 0, changed_date := 0,
             modified_date := 0, permissions := 0, hash := none,
             size := 0, status := FileStatus.pending })] "p" "h1"
    { dest_path := "d", created_date := 0, changed_date := 0,
      modified_date := 0, permissions := 0, hash := none,
      size := 0, status := FileStatus.pending } (by decide)

/-! ## Claim C6 — the producer's skip log for a missing source -/

/-- The log line `run_producer` emits when `fs::metadata` on a pending
record's source path fails (`pipeline.rs` lines 182–188): the Rust code
formats the path with its quoting debug formatter between the fixed
prefix and the error text. -/
def producer_stat_error_log (source_path err : String) : String :=
  "Skipping (read error): \"" ++ source_path ++ "\" - " ++ err

/-- C6 evaluated at the failing input: the skip log line for a pending
record whose source no longer exists is the fixed
`Skipping (read error): …` text, which does not contain the literal
phrase `source file no longer exists` that the spec — and the
repository's own integration test `test_missing_source_file_skipped` —
require. -/
theorem missing_source_log_lacks_phrase :
    producer_stat_error_log "/src/ghost_file.txt"
        "No such file or directory (os error 2)" =
      "Skipping (read error): \"/src/ghost_file.txt\" - No such file or directory (os error 2)" ∧
    ¬ ("source file no longer exists".data <:+:
        (producer_stat_error_log "/src/ghost_file.txt"
          "No such file or directory (os error 2)").data) :=
  ⟨rfl, by decide⟩

/-! ## Orchestrator — `src/lib.rs` -/

/-- The scan-or-resume decision of `run` (`lib.rs` lines 90–104):
`rescan` forces a scan; otherwise a non-empty backlog resumes without a
scan; otherwise scan. -/
def should_scan (rescan : Bool) (pending_count : Nat) : Bool :=
  if rescan then true
  else if pending_count > 0 then false
  else true

/-- C7: with the rescan flag the scan runs unconditionally, whatever the
backlog; without it, a non-empty backlog skips the scan and resumes, and
an empty backlog scans. -/
theorem scan_gating (n : Nat) :
    should_scan true n = true ∧
    (0 < n → should_scan false n = false) ∧
    should_scan false 0 = true := by
  refine ⟨rfl, ?_, rfl⟩
  intro hn
  simp [should_scan, hn]

/-- Witness for C7 at a backlog of 5 pending files. -/
theorem scan_gating_witness :
    should_scan true 5 = true ∧ should_scan false 5 = false ∧
    should_scan false 0 = true :=
  ⟨(scan_gating 5).1, (scan_gating 5).2.1 (by decide), (scan_gating 5).2.2⟩

/-! ## Claim C9 — `reset_for_rescan` -/

theorem dbLookup_reset_for_rescan (db : Db) (p : String) :
    dbLookup (reset_for_rescan db) p =
      (dbLookup db p).map fun r => { r with status := FileStatus.pending } := by
  induction db with
  | nil => rfl
  | cons kv rest ih =>
    obtain ⟨k, r⟩ := kv
    by_cases hk : k = p
    · subst hk
      simp [reset_for_rescan, dbLookup]
    · simpa [reset_for_rescan, dbLookup, hk] using ih

/-- C9: `reset_for_rescan` turns every row's status to `pending` and
changes nothing else — each row keeps all other fields, in particular its
hash; afterwards no row is `synced`. -/
theorem reset_for_rescan_rule (db : Db) :
    (∀ p r, dbLookup db p = some r →
      dbLookup (reset_for_rescan db) p =
        some { r with status := FileStatus.pending }) ∧
    (∀ kv ∈ reset_for_rescan db, kv.2.status ≠ FileStatus.synced) ∧
    (reset_for_rescan db).map Prod.fst = db.map Prod.fst := by
  refine ⟨?_, ?_, ?_⟩
  · intro p r hl
    rw [dbLookup_reset_for_rescan, hl]
    rfl
  · intro kv hkv
    obtain ⟨kv0, -, hkv0⟩ := List.mem_map.mp hkv
    rw [← hkv0]
    intro hcontra
    cases hcontra
  · rw [reset_for_rescan, List.map_map]
    rfl

/-- Witness for C9 on a one-row index holding a synced row with a hash:
the row becomes pending and keeps its hash. -/
theorem reset_for_rescan_rule_witness :
    dbLookup (reset_for_rescan
        [("p", { dest_path := "d", created_date := 0, changed_date := 0,
                 modified_date := 7, permissions := 420,
                 hash := some "h7", size := 3,
                 status := FileStatus.synced })]) "p"
      = some { dest_path := "d", created_date := 0, changed_date := 0,
               modified_date := 7, permissions := 420, hash := some "h7",
               size := 3, status := FileStatus.pending } :=
  (reset_for_rescan_rule
      [("p", { dest_path := "d", created_date := 0, changed_date := 0,
               modified_date := 7, permissions := 420, hash := some "h7",
               size := 3, status := FileStatus.synced })]).1 "p"
    { dest_path := "d", created_date := 0, changed_date := 0,
      modified_date := 7, permissions := 420, hash := some "h7",
      size := 3, status := FileStatus.synced } (by decide)

/-! ## Claim C10 — `parse_bandwidth` and the bandwidth gate

`src/utils.rs` lines 8–38 and `src/pipeline.rs` lines 367–377.  Rust's
`f64` is modelled by exact rationals for the decimal literals the parser
reads (exact on every input evaluated here), plus an explicit IEEE-754
special-value layer for the gate's division. -/

/-- `str::trim()`: strip leading and trailing whitespace. -/
def trimChars (cs : List Char) : List Char :=
  ((cs.dropWhile Char.isWhitespace).reverse.dropWhile
    Char.isWhitespace).reverse

/-- Split a character list at every dot, as the decimal-literal grammar
separates the integer and fractional digit runs. -/
def splitOnDot : List Char → List (List Char)
  | [] => [[]]
  | c :: rest =>
    let r := splitOnDot rest
    if c = '.' then [] :: r
    else
      match r with
      | h :: t => (c :: h) :: t
      | [] => [[c]]

/-- Decimal digit run to number; `none` on an empty run or a
non-digit. -/
def parseDecDigits (cs : List Char) : Option Nat :=
  if cs.isEmpty then none
  else cs.foldl (fun acc c =>
    acc.bind fun n =>
      if c.isDigit then some (n * 10 + (c.toNat - 48)) else none)
    (some 0)

/-- Models Rust `str::parse::<f64>()` on plain decimal literals
(optional sign, digits, optional fraction) by its exact value: the
result `(neg, mantissa, exp)` denotes `± mantissa / 10 ^ exp`.  The
`inf`/`NaN`/exponent spellings and f64 rounding of the literal are
outside every property proved here. -/
def parseF64Lit (cs : List Char) : Option (Bool × Nat × Nat) :=
  let (neg, body) : Bool × List Char :=
    match cs with
    | '-' :: rest => (true, rest)
    | '+' :: rest => (false, rest)
    | _ => (false, cs)
  match splitOnDot body with
  | [ip] => (parseDecDigits ip).map fun n => (neg, n, 0)
  | [ip, fp] =>
    if ip.isEmpty ∧ fp.isEmpty then none
    else
      match (if ip.isEmpty then some 0 else parseDecDigits ip),
          (if fp.isEmpty then some 0 else parseDecDigits fp) with
      | some a, some f => some (neg, a * 10 ^ fp.length + f, fp.length)
      | _, _ => none
  | _ => none

/-- `f64::round` (half away from zero) followed by `as u64`, applied to
the nonnegative exact value `(mantissa / 10 ^ exp) * mult` reached in
`parse_bandwidth`. -/
def roundHalfUp (mantissa exp mult : Nat) : Nat :=
  (2 * mantissa * mult + 10 ^ exp) / (2 * 10 ^ exp)

/-- `parse_bandwidth` (`utils.rs` lines 8–38): trim, read an optional
`K/M/G` suffix (binary multipliers), parse the number, reject negatives,
round, and reject a positive value that rounded to zero.  `num < 0.0`
holds exactly when the literal is negative with a non-zero mantissa, and
`num > 0.0` exactly when the mantissa is non-zero for a non-negative
literal. -/
def parse_bandwidth (s : String) : Except String Nat :=
  let t := trimChars s.data
  if t.isEmpty then Except.error "Bandwidth value cannot be empty"
  else
    let last_char := t.getLastD ' '
    let pair : List Char × Nat :=
      if last_char = 'K' ∨ last_char = 'k' then (t.dropLast, 1024)
      else if last_char = 'M' ∨ last_char = 'm' then
        (t.dropLast, 1024 * 1024)
      else if last_char = 'G' ∨ last_char = 'g' then
        (t.dropLast, 1024 * 1024 * 1024)
      else (t, 1)
    match parseF64Lit (trimChars pair.1) with
    | none => Except.error ("Invalid bandwidth value: " ++ String.mk t)
    | some (neg, mantissa, _exp) =>
      if neg ∧ 0 < mantissa then
        Except.error "Bandwidth value cannot be negative"
      else
        let result := roundHalfUp mantissa _exp pair.2
        if result = 0 ∧ 0 < mantissa then
          Except.error "Bandwidth value too small"
        else Except.ok result

/-- IEEE-754 values as the gate sees them. -/
inductive F64 where
  | finite (q : ℚ)
  | posInf
  | negInf
  | nan
deriving DecidableEq, Repr

/-- IEEE-754 division restricted to finite operands — the only case the
gate reaches, since both `total_bytes_written as f64` and `limit as f64`
are finite: a zero divisor yields an infinity (or NaN at 0/0), never a
finite value. -/
def fdivFinite (a b : ℚ) : F64 :=
  if b = 0 then
    if 0 < a then F64.posInf else if a < 0 then F64.negInf else F64.nan
  else F64.finite (a / b)

/-- `Duration::from_secs_f64`: panics unless the value is finite,
nonnegative and below the `u64` second range (`2^64`). -/
def durationFromSecsF64 : F64 → Except String ℚ
  | F64.finite q =>
    if 0 ≤ q ∧ q < (18446744073709551616 : ℚ) then Except.ok q
    else Except.error "panic: can not convert float seconds to Duration"
  | _ => Except.error "panic: can not convert float seconds to Duration"

/-- The bandwidth gate of `run_consumer` (`pipeline.rs` lines 370–377):
after a block write, with `bw_limit = Some limit`, compute
`Duration::from_secs_f64(total_bytes_written as f64 / limit as f64)`
(the expected duration it then compares against the elapsed time). -/
def bandwidth_gate (total_bytes_written limit : Nat) : Except String ℚ :=
  durationFromSecsF64
    (fdivFinite (total_bytes_written : ℚ) (limit : ℚ))

/-- C10: `parse_bandwidth` accepts `"0"` and returns `Ok(0)` — a zero
limit is not rejected at startup — yet once any bytes have been written
the consumer's gate divides the cumulative byte count by zero, the
expected duration is non-finite, and the `Duration` construction
panics. -/
theorem zero_bwlimit_rule :
    parse_bandwidth "0" = Except.ok 0 ∧
    ∀ total : Nat, 0 < total →
      bandwidth_gate total 0 =
        Except.error "panic: can not convert float seconds to Duration" := by
  constructor
  · rfl
  · intro total ht
    unfold bandwidth_gate fdivFinite
    rw [if_pos (by norm_num), if_pos (by exact_mod_cast ht)]
    rfl

/-- Witness for C10 at one byte written. -/
theorem zero_bwlimit_rule_witness :
    bandwidth_gate 1 0 =
      Except.error "panic: can not convert float seconds to Duration" :=
  zero_bwlimit_rule.2 1 (by decide)

/-! ## Claim C8 — the retry loop of `run` (`lib.rs` lines 140–223)

The loop's interaction with the database and the worker threads is an
oracle: `pending i` is the `pending_count()` observed at the top of
attempt `i` (1-based) and `attemptErr i` the error captured from joining
the producer and consumer of attempt `i` (`none` when both returned
`Ok`, in which case the code resets `last_error` to `None`). -/

structure RetryEnv where
  pending : Nat → Nat
  attemptErr : Nat → Option String

/-- What one run of the loop did: how many attempts actually executed,
total seconds slept, and the `last_error` variable at loop exit. -/
structure LoopOut where
  executed : Nat
  sleepSeconds : Nat
  lastErr : Option String
deriving DecidableEq, Repr

/-- The `for attempt in 1..=retry_attempts` loop (`lib.rs` lines
142–206): break on an empty backlog; sleep `interval` seconds before
every attempt but the first; run the attempt; break as soon as an
attempt reports no error. -/
def retryLoop (env : RetryEnv) (interval : Nat) :
    Nat → Nat → Option String → LoopOut
  | 0, _, le => ⟨0, 0, le⟩
  | fuel + 1, i, le =>
    if env.pending i = 0 then ⟨0, 0, le⟩
    else
      let s := if 1 < i then interval else 0
      match env.attemptErr i with
      | none => ⟨1, s, none⟩
      | some e =>
        let out := retryLoop env interval fuel (i + 1) (some e)
        ⟨out.executed + 1, s + out.sleepSeconds, out.lastErr⟩

/-- The failure message of `run` (`lib.rs` lines 215–218). -/
def mkFailMsg (attempts : Nat) (e : String) : String :=
  "Transfer failed after " ++ toString attempts ++ " attempts: " ++ e

/-- The retry section of `run` (`lib.rs` lines 140–223): run the loop
from attempt 1 with `last_error = None`; afterwards fail iff the loop
exited with a captured error while `pending_count()` (re-queried:
`finalPending`) is still positive. -/
def run_retry (env : RetryEnv)
    (interval retry_attempts finalPending : Nat) : Option String :=
  match (retryLoop env interval retry_attempts 1 none).lastErr with
  | some e =>
    if finalPending > 0 then some (mkFailMsg retry_attempts e) else none
  | none => none

theorem retryLoop_zero (env : RetryEnv) (interval i : Nat)
    (le : Option String) :
    retryLoop env interval 0 i le = ⟨0, 0, le⟩ := rfl

theorem retryLoop_succ_emptyBacklog (env : RetryEnv)
    (interval fuel i : Nat) (le : Option String)
    (hp : env.pending i = 0) :
    retryLoop env interval (fuel + 1) i le = ⟨0, 0, le⟩ := by
  unfold retryLoop
  rw [if_pos hp]

theorem retryLoop_succ_ok (env : RetryEnv) (interval fuel i : Nat)
    (le : Option String) (hp : ¬ env.pending i = 0)
    (he : env.attemptErr i = none) :
    retryLoop env interval (fuel + 1) i le =
      ⟨1, if 1 < i then interval else 0, none⟩ := by
  unfold retryLoop
  rw [if_neg hp]
  simp only [he]

theorem retryLoop_succ_err (env : RetryEnv) (interval fuel i : Nat)
    (le : Option String) (e : String) (hp : ¬ env.pending i = 0)
    (he : env.attemptErr i = some e) :
    retryLoop env interval (fuel + 1) i le =
      ⟨(retryLoop env interval fuel (i + 1) (some e)).executed + 1,
       (if 1 < i then interval else 0)
         + (retryLoop env interval fuel (i + 1) (some e)).sleepSeconds,
       (retryLoop env interval fuel (i + 1) (some e)).lastErr⟩ := by
  simp only [retryLoop]
  rw [if_neg hp]
  simp only [he]

theorem retryLoop_executed_le (env : RetryEnv) (interval : Nat) :
    ∀ (fuel i : Nat) (le : Option String),
      (retryLoop env interval fuel i le).executed ≤ fuel := by
  intro fuel
  induction fuel with
  | zero => intro i le; rw [retryLoop_zero]
  | succ fuel ih =>
    intro i le
    by_cases hp : env.pending i = 0
    · rw [retryLoop_succ_emptyBacklog env interval fuel i le hp]
      exact Nat.zero_le _
    · cases he : env.attemptErr i with
      | none =>
        rw [retryLoop_succ_ok env interval fuel i le hp he]
        dsimp only
        omega
      | some e =>
        rw [retryLoop_succ_err env interval fuel i le e hp he]
        have := ih (i + 1) (some e)
        dsimp only
        omega

theorem retryLoop_lastErr (env : RetryEnv) (interval : Nat) :
    ∀ (fuel i : Nat) (le : Option String),
      (retryLoop env interval fuel i le).lastErr =
        if (retryLoop env interval fuel i le).executed = 0 then le
        else env.attemptErr
          (i + (retryLoop env interval fuel i le).executed - 1) := by
  intro fuel
  induction fuel with
  | zero => intro i le; rw [retryLoop_zero]; rfl
  | succ fuel ih =>
    intro i le
    by_cases hp : env.pending i = 0
    · rw [retryLoop_succ_emptyBacklog env interval fuel i le hp]
      rfl
    · cases he : env.attemptErr i with
      | none =>
        rw [retryLoop_succ_ok env interval fuel i le hp he]
        dsimp only
        rw [if_neg (by omega)]
        have hidx : i + 1 - 1 = i := by omega
        rw [hidx, he]
      | some e =>
        rw [retryLoop_succ_err env interval fuel i le e hp he]
        dsimp only
        rw [if_neg (by omega)]
        have hih := ih (i + 1) (some e)
        by_cases hz :
            (retryLoop env interval fuel (i + 1) (some e)).executed = 0
        · rw [if_pos hz] at hih
          rw [hih, hz]
          have hidx : i + (0 + 1) - 1 = i := by omega
          rw [hidx, he]
        · rw [if_neg hz] at hih
          rw [hih]
          congr 1
          omega

theorem retryLoop_sleep (env : RetryEnv) (interval : Nat) :
    ∀ (fuel i : Nat) (le : Option String), 1 ≤ i →
      (retryLoop env interval fuel i le).sleepSeconds =
        (if 1 < i then (retryLoop env interval fuel i le).executed
         else (retryLoop env interval fuel i le).executed - 1)
          * interval := by
  intro fuel
  induction fuel with
  | zero =>
    intro i le hi1
    rw [retryLoop_zero]
    dsimp only
    by_cases hi : 1 < i <;> simp [hi]
  | succ fuel ih =>
    intro i le hi1
    by_cases hp : env.pending i = 0
    · rw [retryLoop_succ_emptyBacklog env interval fuel i le hp]
      dsimp only
      by_cases hi : 1 < i <;> simp [hi]
    · cases he : env.attemptErr i with
      | none =>
        rw [retryLoop_succ_ok env interval fuel i le hp he]
        dsimp only
        by_cases hi : 1 < i <;> simp [hi]
      | some e =>
        rw [retryLoop_succ_err env interval fuel i le e hp he]
        dsimp only
        have hih := ih (i + 1) (some e) (by omega)
        rw [if_pos (show 1 < i + 1 by omega)] at hih
        rw [hih]
        by_cases hi : 1 < i
        · rw [if_pos hi, if_pos hi]
          ring
        · rw [if_neg hi, if_neg hi]
          rw [Nat.add_sub_cancel]
          ring

theorem retryLoop_pending_pos (env : RetryEnv) (interval : Nat) :
    ∀ (fuel i : Nat) (le : Option String) (j : Nat), i ≤ j →
      j < i + (retryLoop env interval fuel i le).executed →
      0 < env.pending j := by
  intro fuel
  induction fuel with
  | zero =>
    intro i le j hij hj
    rw [retryLoop_zero] at hj
    dsimp only at hj
    omega
  | succ fuel ih =>
    intro i le j hij hj
    by_cases hp : env.pending i = 0
    · rw [retryLoop_succ_emptyBacklog env interval fuel i le hp] at hj
      dsimp only at hj
      omega
    · cases he : env.attemptErr i with
      | none =>
        rw [retryLoop_succ_ok env interval fuel i le hp he] at hj
        dsimp only at hj
        have : j = i := by omega
        subst this
        omega
      | some e =>
        rw [retryLoop_succ_err env interval fuel i le e hp he] at hj
        dsimp only at hj
        by_cases hji : j = i
        · subst hji
          omega
        · exact ih (i + 1) (some e) j (by omega) (by omega)

theorem retryLoop_err_before_last (env : RetryEnv) (interval : Nat) :
    ∀ (fuel i : Nat) (le : Option String) (j : Nat), i ≤ j →
      j + 1 < i + (retryLoop env interval fuel i le).executed →
      env.attemptErr j ≠ none := by
  intro fuel
  induction fuel with
  | zero =>
    intro i le j hij hj
    rw [retryLoop_zero] at hj
    dsimp only at hj
    omega
  | succ fuel ih =>
    intro i le j hij hj
    by_cases hp : env.pending i = 0
    · rw [retryLoop_succ_emptyBacklog env interval fuel i le hp] at hj
      dsimp only at hj
      omega
    · cases he : env.attemptErr i with
      | none =>
        rw [retryLoop_succ_ok env interval fuel i le hp he] at hj
        dsimp only at hj
        omega
      | some e =>
        rw [retryLoop_succ_err env interval fuel i le e hp he] at hj
        dsimp only at hj
        by_cases hji : j = i
        · subst hji
          rw [he]
          intro hc
          cases hc
        · exact ih (i + 1) (some e) j (by omega) (by omega)

theorem retryLoop_stop_reason (env : RetryEnv) (interval : Nat) :
    ∀ (fuel i : Nat) (le : Option String),
      (retryLoop env interval fuel i le).executed < fuel →
      env.pending (i + (retryLoop env interval fuel i le).executed) = 0 ∨
      (0 < (retryLoop env interval fuel i le).executed ∧
        env.attemptErr
          (i + (retryLoop env interval fuel i le).executed - 1)
            = none) := by
  intro fuel
  induction fuel with
  | zero => intro i le h; omega
  | succ fuel ih =>
    intro i le hlt
    by_cases hp : env.pending i = 0
    · left
      rw [retryLoop_succ_emptyBacklog env interval fuel i le hp]
      dsimp only
      rw [Nat.add_zero]
      exact hp
    · cases he : env.attemptErr i with
      | none =>
        right
        rw [retryLoop_succ_ok env interval fuel i le hp he]
        dsimp only
        refine ⟨by omega, ?_⟩
        have hidx : i + 1 - 1 = i := by omega
        rw [hidx, he]
      | some e =>
        rw [retryLoop_succ_err env interval fuel i le e hp he] at hlt ⊢
        dsimp only at hlt ⊢
        have hfuel :
            (retryLoop env interval fuel (i + 1) (some e)).executed
              < fuel := by omega
        rcases ih (i + 1) (some e) hfuel with hcase | hcase
        · left
          have hidx : i + ((retryLoop env interval fuel (i + 1)
              (some e)).executed + 1) =
              i + 1 + (retryLoop env interval fuel (i + 1)
                (some e)).executed := by omega
          rw [hidx]
          exact hcase
        · right
          refine ⟨by omega, ?_⟩
          have hidx : i + ((retryLoop env interval fuel (i + 1)
              (some e)).executed + 1) - 1 =
              i + 1 + (retryLoop env interval fuel (i + 1)
                (some e)).executed - 1 := by omega
          rw [hidx]
          exact hcase.2

/-- C8: the loop executes at most `retry_attempts` attempts; every
executed attempt saw a non-empty backlog, every attempt before the last
executed one ended in error, and an early exit happens exactly because
the backlog emptied or the last attempt reported no error; it sleeps
`retry_interval_seconds` exactly once before every attempt after the
first (total `(executed - 1) * interval` seconds); and the run fails iff
the last executed attempt errored while the backlog is still non-empty,
in which case the message names the attempt budget and the last
error. -/
theorem retry_rule (env : RetryEnv) (interval R finalPending : Nat) :
    (retryLoop env interval R 1 none).executed ≤ R ∧
    (retryLoop env interval R 1 none).sleepSeconds =
      ((retryLoop env interval R 1 none).executed - 1) * interval ∧
    (∀ j, 1 ≤ j → j < 1 + (retryLoop env interval R 1 none).executed →
      0 < env.pending j) ∧
    (∀ j, 1 ≤ j → j + 1 < 1 + (retryLoop env interval R 1 none).executed →
      env.attemptErr j ≠ none) ∧
    ((retryLoop env interval R 1 none).executed < R →
      env.pending (1 + (retryLoop env interval R 1 none).executed) = 0 ∨
      (0 < (retryLoop env interval R 1 none).executed ∧
        env.attemptErr ((retryLoop env interval R 1 none).executed)
          = none)) ∧
    (∀ msg, run_retry env interval R finalPending = some msg ↔
      ∃ e, 0 < (retryLoop env interval R 1 none).executed ∧
        env.attemptErr ((retryLoop env interval R 1 none).executed)
          = some e ∧
        0 < finalPending ∧ msg = mkFailMsg R e) := by
  have hle := retryLoop_lastErr env interval R 1 none
  refine ⟨retryLoop_executed_le env interval R 1 none, ?_, ?_, ?_, ?_, ?_⟩
  · rw [retryLoop_sleep env interval R 1 none (by omega),
      if_neg (show ¬ 1 < 1 by omega)]
  · intro j hj hjlt
    exact retryLoop_pending_pos env interval R 1 none j hj hjlt
  · intro j hj hjlt
    exact retryLoop_err_before_last env interval R 1 none j hj hjlt
  · intro hlt
    rcases retryLoop_stop_reason env interval R 1 none hlt with h | h
    · exact Or.inl h
    · refine Or.inr ⟨h.1, ?_⟩
      have hidx : 1 + (retryLoop env interval R 1 none).executed - 1 =
          (retryLoop env interval R 1 none).executed := by omega
      rw [hidx] at h
      exact h.2
  · intro msg
    by_cases hz : (retryLoop env interval R 1 none).executed = 0
    · rw [if_pos hz] at hle
      have hrun : run_retry env interval R finalPending = none := by
        unfold run_retry
        rw [hle]
      rw [hrun]
      constructor
      · intro hc
        cases hc
      · rintro ⟨e, hex, -, -, -⟩
        omega
    · rw [if_neg hz] at hle
      have hidx : 1 + (retryLoop env interval R 1 none).executed - 1 =
          (retryLoop env interval R 1 none).executed := by omega
      rw [hidx] at hle
      cases hae :
          env.attemptErr ((retryLoop env interval R 1 none).executed) with
      | none =>
        have hrun : run_retry env interval R finalPending = none := by
          unfold run_retry
          rw [hle, hae]
        rw [hrun]
        constructor
        · intro hc
          cases hc
        · rintro ⟨e, -, hsome, -, -⟩
          exact Option.noConfusion hsome
      | some e0 =>
        have hrun : run_retry env interval R finalPending =
            (if finalPending > 0 then some (mkFailMsg R e0) else none) := by
          unfold run_retry
          rw [hle, hae]
        rw [hrun]
        by_cases hfp : finalPending > 0
        · rw [if_pos hfp]
          constructor
          · intro hmsg
            refine ⟨e0, by omega, rfl, hfp, ?_⟩
            cases hmsg
            rfl
          · rintro ⟨e, -, hsome, -, rfl⟩
            cases hsome
            rfl
        · rw [if_neg hfp]
          constructor
          · intro hc
            cases hc
          · rintro ⟨e, -, -, hfp2, -⟩
            omega

/-- Witness for C8: three attempts that all error on a never-emptying
backlog exhaust the budget, sleep twice, and fail with the message
naming the budget and the last error. -/
theorem retry_rule_witness :
    run_retry ⟨fun _ => 1, fun _ => some "boom"⟩ 60 3 1 =
      some (mkFailMsg 3 "boom") :=
  ((retry_rule ⟨fun _ => 1, fun _ => some "boom"⟩ 60 3 1).2.2.2.2.2
      (mkFailMsg 3 "boom")).mpr
    ⟨"boom", by decide, by decide, by decide, rfl⟩

end HSync
